import Mathlib

/-!
Verification development for the go-seele p2p core (Peer/Server complex).

The Go sources embedded here are `p2p/server.go` (Server, handshake engine)
and the peer file (Peer lifecycle, protocol wrappers, dispatch, Info).
Machine integers are modelled as `Nat` with explicit `% 2^w` where the Go
code performs `uint16`/`uint32` arithmetic.  Byte strings are `List Nat`.
Go operations that can panic at runtime (out-of-range slicing, writing to a
nil map, sending on a closed channel) are modelled with `Option`/explicit
outcome lists: the value `none` (or the outcome `panicked`) stands for a Go
runtime panic, which is distinct from an error return.
-/

set_option maxRecDepth 40000

/-! ### Byte-level utilities (binary.BigEndian, Go slice semantics) -/

/-- Big-endian encoding of `n` into `w` bytes, as `binary.BigEndian.PutUintXX`
writes them (most significant byte first, value truncated to `w` bytes). -/
def beBytes : Nat → Nat → List Nat
  | 0, _ => []
  | w + 1, n => beBytes w (n / 256) ++ [n % 256]

/-- Big-endian value of a byte list, as `binary.BigEndian.UintXX` reads it. -/
def beVal (l : List Nat) : Nat :=
  l.foldl (fun a b => a * 256 + b) 0

/-- Go slice expression `l[lo:hi]`: `none` models the runtime panic raised
when the bounds are out of range. -/
def goSlice (l : List Nat) (lo hi : Nat) : Option (List Nat) :=
  if lo ≤ hi ∧ hi ≤ l.length then some ((l.drop lo).take (hi - lo)) else none

/-- `binary.BigEndian.Uint64(l[k:])`: panics (`none`) when `k` is past the end
of `l` or fewer than 8 bytes remain. -/
def goUint64At (l : List Nat) (k : Nat) : Option Nat :=
  match goSlice l k l.length with
  | none => none
  | some t => if 8 ≤ t.length then some (beVal (t.take 8)) else none

/-- `binary.BigEndian.Uint32(l[k:])`: panics (`none`) when `k` is past the end
of `l` or fewer than 4 bytes remain. -/
def goUint32At (l : List Nat) (k : Nat) : Option Nat :=
  match goSlice l k l.length with
  | none => none
  | some t => if 4 ≤ t.length then some (beVal (t.take 4)) else none

/-- `uint32` subtraction `a - b` with wraparound, for `a b < 2^32`. -/
def u32sub (a b : Nat) : Nat :=
  (a + (2 ^ 32 - b % 2 ^ 32)) % 2 ^ 32

/-! ### Handshake data model (`p2p/server.go`) -/

/-- A wire message: `Message{ Code uint16, Payload []byte }`. -/
structure Message where
  code : Nat
  payload : List Nat
deriving DecidableEq, Repr

/-- The handshake payload `ProtoHandShake{ NodeID [64]byte, Caps []Cap }`.
Capabilities are opaque for the handshake engine; they are modelled as
name/version pairs. -/
structure ProtoHandShake where
  nodeID : List Nat
  caps : List (String × Nat)
deriving DecidableEq, Repr

/-- Modelled from the spec: the control-message codes and `baseProtoCode` are
declared in a source file (message constants) that is not under `src/`; the
spec fixes four distinct control codes below `baseProtoCode`.  Concrete
values are chosen here; no theorem depends on the exact values beyond the
control codes lying below `baseProtoCode` and being pairwise distinct. -/
def ctlMsgPingCode : Nat := 0

/-- Modelled from the spec: the `Pong` control code (see `ctlMsgPingCode`). -/
def ctlMsgPongCode : Nat := 1

/-- Modelled from the spec: the `Disc` control code (see `ctlMsgPingCode`). -/
def ctlMsgDiscCode : Nat := 2

/-- Modelled from the spec: the `ProtoHandshake` control code
(see `ctlMsgPingCode`). -/
def ctlMsgProtoHandshake : Nat := 3

/-- Modelled from the spec: the first code available to sub-protocols;
control codes lie strictly below it. -/
def baseProtoCode : Nat := 100

/-- `hsExtraDataLen = 32`: length of the extra-data block
`md5(H) || nonce_client || nonce_server`. -/
def hsExtraDataLen : Nat := 32

/-- The external cryptographic and serialization services used by the
handshake engine (out of scope for the core per the spec): RLP-style
serialization, md5, secp256k1 sign/recover, ECIES encrypt/decrypt.
`packWrapHSMsg`/`unPackWrapHSMsg` are parameterized over them; concrete
instantiations below give them executable models. -/
structure HSCrypto where
  ser : ProtoHandShake → List Nat
  deser : List Nat → Option ProtoHandShake
  md5f : List Nat → List Nat
  signf : List Nat → List Nat
  recoverf : List Nat → List Nat → Option (List Nat)
  encf : List Nat → List Nat
  decf : List Nat → Option (List Nat)

/-- `Server.packWrapHSMsg` (`p2p/server.go`): serialize the handshake message,
build the 32-byte extra block `md5(H) || nonce_client_BE || nonce_server_BE`,
sign it, encrypt `extra || sig` with ECIES to the peer, and frame the payload
as `H || enc || len(enc) as u32 BE`.  (`md5f` digests are 16 bytes, as md5
sums always are; the `.take 16` mirrors the copy into the 32-byte buffer.) -/
def packWrapHSMsg (c : HSCrypto) (handshakeMsg : ProtoHandShake)
    (nounceCnt nounceSvr : Nat) : Message :=
  let hdmsgRLP := c.ser handshakeMsg
  let extBuf := (c.md5f hdmsgRLP).take 16 ++ beBytes 8 nounceCnt ++ beBytes 8 nounceSvr
  let sig := c.signf extBuf
  let encOrg := extBuf ++ sig
  let enc := c.encf encOrg
  { code := ctlMsgProtoHandshake,
    payload := hdmsgRLP ++ enc ++ beBytes 4 (enc.length % 2 ^ 32) }

/-- `Server.unPackWrapHSMsg` (`p2p/server.go`), line for line.  The result is
`none` when the Go code would panic (out-of-range slice), `some (.error e)`
when it returns an error, and `some (.ok (msg, nounceCnt, nounceSvr))` on
success.  Note that the two nonces are read from
`Payload[recvHSMsgLen+16:]` / `Payload[recvHSMsgLen+24:]`, positions inside
the still-encrypted ECIES block. -/
def unPackWrapHSMsg (c : HSCrypto) (m : Message) :
    Option (Except String (ProtoHandShake × Nat × Nat)) :=
  let payload := m.payload
  let size := payload.length % 2 ^ 32
  if size < hsExtraDataLen + 4 then some (Except.error "recved err msg") else
  match goUint32At payload (size - 4) with
  | none => none
  | some extraEncLen =>
  let recvHSMsgLen := u32sub (u32sub size extraEncLen) 4
  match goUint64At payload (recvHSMsgLen + 16) with
  | none => none
  | some nounceCnt =>
  match goUint64At payload (recvHSMsgLen + 24) with
  | none => none
  | some nounceSvr =>
  match goSlice payload recvHSMsgLen (size - 4) with
  | none => none
  | some recvEnc =>
  match goSlice payload 0 recvHSMsgLen with
  | none => none
  | some hsBytes =>
  match c.deser hsBytes with
  | none => some (Except.error "deserialize failed")
  | some recvMsg =>
  match c.decf recvEnc with
  | none => some (Except.error "ecies decrypt failed")
  | some encOrg =>
  match goSlice encOrg 0 hsExtraDataLen, goSlice encOrg hsExtraDataLen encOrg.length with
  | none, _ => none
  | some _, none => none
  | some extra, some sigPart =>
  match c.recoverf extra sigPart with
  | none => some (Except.error "recover pubkey failed")
  | some recvPubkey =>
  match goSlice recvPubkey 1 recvPubkey.length with
  | none => none
  | some pubTail =>
  if recvMsg.nodeID = pubTail then
    if c.md5f hsBytes = encOrg.take 16 then
      some (Except.ok (recvMsg, nounceCnt, nounceSvr))
    else some (Except.error "unPackWrapHSMsg: recved md5sum not match!")
  else some (Except.error "unPackWrapHSMsg: recvPubkey not match")

/-! ### Concrete instantiations of the external crypto services -/

/-- The sender's uncompressed secp256k1 public key in the concrete model:
a leading tag byte followed by 64 identity bytes. -/
def pubA : List Nat := 4 :: List.replicate 64 7

/-- A concrete handshake message whose `NodeID` is the sender's public key
without the leading tag byte (as `doHandShake` fills it). -/
def msg1 : ProtoHandShake := { nodeID := List.replicate 64 7, caps := [] }

/-- Concrete model of the external services, shaped like the real ones:
serialization is the identity on the node id, md5 digests are 16 bytes,
signatures are recoverable (`recoverf` returns the signer's key exactly on
the signed block), and the ECIES ciphertext is a 65-byte ephemeral-key
prefix followed by the (modelled) encryption of the plaintext; decryption
strips the prefix.  What matters for the claims: bytes 16..32 of an ECIES
ciphertext belong to the ephemeral public key, not to the plaintext. -/
def cM1 : HSCrypto where
  ser := fun h => h.nodeID
  deser := fun b => some { nodeID := b, caps := [] }
  md5f := fun b => List.replicate 15 0 ++ [b.length % 256]
  signf := fun e => 9 :: e
  recoverf := fun e s => if s = 9 :: e then some pubA else some (0 :: List.replicate 64 0)
  encf := fun x => List.replicate 65 0 ++ x
  decf := fun y => if y.take 65 = List.replicate 65 0 then some (y.drop 65) else none

/-- Variant of `cM1` whose ECIES decryption yields a 10-byte plaintext: the
remote party encrypted a short block to our public key, which honest ECIES
decryption happily returns. -/
def cM2 : HSCrypto :=
  { cM1 with decf := fun _ => some (List.replicate 10 0) }

/-- A 36-byte handshake frame for `cM2`: a 32-byte ciphertext block followed
by the big-endian length field 32 (so the deserialized prefix is empty). -/
def payload2 : List Nat := List.replicate 32 5 ++ beBytes 4 32

/-- C1: pack followed by unpack returns the nonces read out of the ECIES
ciphertext (bytes of the ephemeral key, here 0, 0) instead of the original
nonces (1, 2); the handshake message itself does round-trip. -/
theorem c1_code_eval :
    unPackWrapHSMsg cM1 (packWrapHSMsg cM1 msg1 1 2)
      = some (Except.ok (msg1, 0, 0)) ∧ (0 : Nat) ≠ 1 ∧ (0 : Nat) ≠ 2 :=
  ⟨rfl, by decide, by decide⟩

/-- C2: on a well-formed 36-byte frame whose ECIES decryption is only
10 bytes, `unPackWrapHSMsg` panics (`none`, from the out-of-range slice
`encOrg[0:32]`) instead of returning an error. -/
theorem c2_code_eval :
    unPackWrapHSMsg cM2 { code := ctlMsgProtoHandshake, payload := payload2 } = none :=
  rfl

/-! ### Peer channel model: close() and Disconnect() (peer file) -/

/-- State of a Go channel as `Disconnect`'s select sees it: no communication
partner ready, a partner ready to complete the communication, or closed. -/
inductive ChanSt
  | idle
  | ready
  | closedCh
deriving DecidableEq, Repr

/-- Possible results of `Peer.Disconnect`'s two-case select. -/
inductive DiscOutcome
  | sent
  | recvClosed
  | panicked
  | blocked
deriving DecidableEq, Repr

/-- Go select semantics for `Disconnect(reason)`:
`select { case p.disconnection <- reason: ... case <-p.closed: }`.
A send on a closed channel counts as ready and panics when chosen; a receive
on a closed channel is ready and returns; with several ready cases the
runtime picks one nondeterministically, so the result is the list of
possible outcomes.  If no case is ready the call blocks. -/
def disconnectOutcomes (disc closedSig : ChanSt) : List DiscOutcome :=
  let sendReady : List DiscOutcome :=
    match disc with
    | ChanSt.ready => [DiscOutcome.sent]
    | ChanSt.closedCh => [DiscOutcome.panicked]
    | ChanSt.idle => []
  let recvReady : List DiscOutcome :=
    match closedSig with
    | ChanSt.closedCh => [DiscOutcome.recvClosed]
    | _ => []
  if (sendReady ++ recvReady).isEmpty then [DiscOutcome.blocked]
  else sendReady ++ recvReady

/-- `Peer.close()`: `close(p.closed); close(p.disconnection)` — both the
`disconnection` channel and the `closed` signal are closed. -/
def peerCloseChans (_st : ChanSt × ChanSt) : ChanSt × ChanSt :=
  (ChanSt.closedCh, ChanSt.closedCh)

/-- C3 as stated: after `close()` (and in every other state), `Disconnect`
neither blocks nor panics. -/
def c3Claim : Prop :=
  ∀ st : ChanSt × ChanSt,
    DiscOutcome.panicked ∉
      disconnectOutcomes (peerCloseChans st).1 (peerCloseChans st).2

/-- C3: after `close()` has fired, `Disconnect` may execute the send case on
the closed `disconnection` channel and panic: `close()` closes
`disconnection` as well as `closed`, so the select's send case is a send on
a closed channel. -/
theorem c3_code_eval :
    DiscOutcome.panicked ∈
      disconnectOutcomes (peerCloseChans (ChanSt.idle, ChanSt.idle)).1
        (peerCloseChans (ChanSt.idle, ChanSt.idle)).2
    ∧ ¬ c3Claim := by
  constructor
  · decide
  · intro h
    exact h (ChanSt.idle, ChanSt.idle) (by decide)

/-! ### Protocol wrappers and message dispatch (peer file) -/

/-- `uint16` modulus. -/
def u16size : Nat := 65536

/-- A sub-protocol declaration `Protocol{ Name, Version, Length, AddPeer,
GetPeer }`: `length` is the size of its code window; `getPeer` is the
optional metadata query (`none` models a nil `GetPeer` field, and the
function result `none` models a nil metadata return). -/
structure ProtocolM where
  pname : String
  version : Nat
  length : Nat
  getPeer : Option (Nat → Option String)

/-- Modelled from the spec: `Cap.String()` is declared outside `src/`; the
spec identifies a capability by its `(name, version)` pair, rendered as a
string unique per sub-protocol within a peer session. -/
def ProtocolM.capStr (p : ProtocolM) : String :=
  p.pname ++ "/" ++ toString p.version

/-- A protocol wrapper `protocolRW`: the embedded protocol, the code-window
offset, and the content of its capacity-1 inbound channel (`in`). -/
structure PRW where
  proto : ProtocolM
  offset : Nat
  qval : Option Message

/-- The code-range test `handle` performs for a wrapper:
`msg.Code >= p.offset && msg.Code < p.offset+p.Length`, the sum taken in
`uint16` arithmetic. -/
def inRange (w : PRW) (c : Nat) : Prop :=
  w.offset ≤ c ∧ c < (w.offset + w.proto.length) % u16size

instance (w : PRW) (c : Nat) : Decidable (inRange w c) :=
  inferInstanceAs (Decidable (_ ∧ _))

/-- The `NewPeer` wrapper-construction loop: one wrapper per protocol, the
offset a running sum starting from the initial offset, accumulated in the
`uint16` variable `offset`; each wrapper's inbound channel starts empty. -/
def mkWrappersAux : Nat → List ProtocolM → List PRW
  | _, [] => []
  | off, p :: ps =>
      { proto := p, offset := off, qval := none } ::
        mkWrappersAux ((off + p.length) % u16size) ps

/-- The wrappers `NewPeer` builds, starting the running sum at
`baseProtoCode` (here a parameter `base`). -/
def mkWrappers (base : Nat) (ps : List ProtocolM) : List PRW :=
  mkWrappersAux base ps

/-- Go map insertion for the peer's `protocolMap` (keyed by capability
string): a new binding replaces an existing one with the same key. -/
def insertGo (al : List (String × PRW)) (k : String) (v : PRW) :
    List (String × PRW) :=
  if (al.map Prod.fst).contains k then
    al.map (fun kv => if kv.1 = k then (k, v) else kv)
  else al ++ [(k, v)]

/-- The `protocolMap` `NewPeer` builds: each constructed wrapper is stored
under its capability string. -/
def newPeerMap (base : Nat) (ps : List ProtocolM) : List (String × PRW) :=
  (mkWrappers base ps).foldl (fun al w => insertGo al w.proto.capStr w) []

/-- Sum of the protocols' code-window lengths. -/
def sumLen : List ProtocolM → Nat
  | [] => 0
  | p :: ps => p.length + sumLen ps

/-- The error `handle` returns when no wrapper's range covers the code. -/
def unknownCodeMsg (c : Nat) : String :=
  "could not found mapping proto with code " ++ toString c

/-- Result of `Peer.handle`: a control message handled in place (`ctlOk`), a
`Ping` answered by an asynchronous `Pong` (`pongReply`), a message enqueued
to the wrapper at position `i` (`enq`), the read loop blocked on the
capacity-1 channel of the wrapper at position `i` (`blocked`), or an error
return (`err`). -/
inductive HandleRes
  | ctlOk
  | pongReply
  | enq (i : Nat) (ws : List PRW)
  | blocked (i : Nat)
  | err (e : String)

/-- The linear scan of `Peer.handle` over the wrappers, in iteration order:
the first wrapper whose range covers the code receives the message on its
capacity-1 channel (blocking when the channel already holds a message). -/
def scanEnqueue (m : Message) : List PRW → Option (Nat × Option (List PRW))
  | [] => none
  | w :: ws =>
    if inRange w m.code then
      match w.qval with
      | none => some (0, some ({ w with qval := some m } :: ws))
      | some _ => some (0, none)
    else
      match scanEnqueue m ws with
      | none => none
      | some (i, rest) => some (i + 1, rest.map (fun l => w :: l))

/-- `Peer.handle(msgRecv)`: control codes below `base` are handled in place
(`Ping` → asynchronous `Pong`, `Pong` → no-op, `Disc` → fatal error, other
control codes → no-op); otherwise the wrappers are scanned for the one whose
range covers the code. -/
def handle (base : Nat) (ws : List PRW) (m : Message) : HandleRes :=
  if m.code < base then
    if m.code = ctlMsgPingCode then HandleRes.pongReply
    else if m.code = ctlMsgPongCode then HandleRes.ctlOk
    else if m.code = ctlMsgDiscCode then
      HandleRes.err ("error=" ++ toString ctlMsgDiscCode)
    else HandleRes.ctlOk
  else
    match scanEnqueue m ws with
    | none => HandleRes.err (unknownCodeMsg m.code)
    | some (i, none) => HandleRes.blocked i
    | some (i, some ws2) => HandleRes.enq i ws2

/-- `protocolRW.ReadMsg`'s code rewrite `msg.Code -= rw.offset` in `uint16`
arithmetic, for `a b < 2^16`. -/
def wrapSub16 (a b : Nat) : Nat :=
  (a + (u16size - b % u16size)) % u16size

/-- `protocolRW.ReadMsg`: a two-case select between the wrapper's inbound
channel and the peer's `closed` signal.  The result lists the possible
outcomes, each an (error-or-message, new wrapper state) pair: with a message
pending its case is ready; with `closed` fired that case is ready; with both
ready the runtime picks either. -/
def readMsgOutcomes (w : PRW) (closedB : Bool) :
    List (Except String Message × PRW) :=
  (match w.qval with
   | some m =>
       [(Except.ok { code := wrapSub16 m.code w.offset, payload := m.payload },
         { w with qval := none })]
   | none => []) ++
  (if closedB then [(Except.error "peer connection closed", w)] else [])

/-- `Peer.sendCtlMsg(msgCode)`: writes the control message and returns `nil`
unconditionally — the result of `p.rw.WriteMsg(hsMsg)` (the parameter here)
is discarded. -/
def sendCtlMsg (_writeRes : Except String Unit) : Except String Unit :=
  Except.ok ()

/-- `Peer.readLoop` driven over a finite prefix of read results: returns the
first error surfaced on `readErr` (`some e`), or `none` while no fault has
been surfaced (input exhausted, or the loop is blocked on a full capacity-1
wrapper channel). -/
def readLoopRun (base : Nat) : List PRW → List (Except String Message) → Option String
  | _, [] => none
  | _, Except.error e :: _ => some e
  | ws, Except.ok m :: rest =>
    match handle base ws m with
    | HandleRes.err e2 => some e2
    | HandleRes.ctlOk => readLoopRun base ws rest
    | HandleRes.pongReply => readLoopRun base ws rest
    | HandleRes.enq _ ws2 => readLoopRun base ws2 rest
    | HandleRes.blocked _ => none

/-- Pairwise disjointness of the wrappers' code ranges, as sets of codes
accepted by `inRange`. -/
def RangesDisjoint (ws : List PRW) : Prop :=
  List.Pairwise (fun w1 w2 => ∀ c, ¬ (inRange w1 c ∧ inRange w2 c)) ws

lemma scanEnqueue_eq_none (m : Message) :
    ∀ ws : List PRW, (∀ w ∈ ws, ¬ inRange w m.code) → scanEnqueue m ws = none := by
  intro ws
  induction ws with
  | nil => intro _; rfl
  | cons w ws ih =>
    intro h
    simp only [scanEnqueue]
    rw [if_neg (h w (List.mem_cons_self w ws)),
      ih (fun x hx => h x (List.mem_cons_of_mem w hx))]

lemma scanEnqueue_first_empty (m : Message) :
    ∀ (ws : List PRW) (i : Nat) (hi : i < ws.length),
      inRange (ws.get ⟨i, hi⟩) m.code →
      (∀ j (hj : j < ws.length), j < i → ¬ inRange (ws.get ⟨j, hj⟩) m.code) →
      (ws.get ⟨i, hi⟩).qval = none →
      scanEnqueue m ws
        = some (i, some (ws.set i { ws.get ⟨i, hi⟩ with qval := some m })) := by
  intro ws
  induction ws with
  | nil => intro i hi; exact absurd hi (by simp)
  | cons w ws ih =>
    intro i hi hin hfirst hq
    cases i with
    | zero =>
      have hin0 : inRange w m.code := hin
      have hq0 : w.qval = none := hq
      simp only [scanEnqueue]
      rw [if_pos hin0, hq0]
      rfl
    | succ i =>
      have hw : ¬ inRange w m.code := hfirst 0 (by simp) (Nat.succ_pos i)
      simp only [scanEnqueue]
      rw [if_neg hw,
        ih i (Nat.lt_of_succ_lt_succ hi) hin
          (fun j hj hlt => hfirst (j + 1) (Nat.succ_lt_succ hj) (Nat.succ_lt_succ hlt)) hq]
      rfl

lemma scanEnqueue_first_full (m x : Message) :
    ∀ (ws : List PRW) (i : Nat) (hi : i < ws.length),
      inRange (ws.get ⟨i, hi⟩) m.code →
      (∀ j (hj : j < ws.length), j < i → ¬ inRange (ws.get ⟨j, hj⟩) m.code) →
      (ws.get ⟨i, hi⟩).qval = some x →
      scanEnqueue m ws = some (i, none) := by
  intro ws
  induction ws with
  | nil => intro i hi; exact absurd hi (by simp)
  | cons w ws ih =>
    intro i hi hin hfirst hq
    cases i with
    | zero =>
      have hin0 : inRange w m.code := hin
      have hq0 : w.qval = some x := hq
      simp only [scanEnqueue]
      rw [if_pos hin0, hq0]
    | succ i =>
      have hw : ¬ inRange w m.code := hfirst 0 (by simp) (Nat.succ_pos i)
      simp only [scanEnqueue]
      rw [if_neg hw,
        ih i (Nat.lt_of_succ_lt_succ hi) hin
          (fun j hj hlt => hfirst (j + 1) (Nat.succ_lt_succ hj) (Nat.succ_lt_succ hlt)) hq]
      rfl

/-- C6: for a message with code at or above `baseProtoCode` and wrappers with
pairwise-disjoint ranges (the invariant `NewPeer` establishes), `handle`
returns the unknown-code error when no wrapper's range covers the code, and
otherwise targets exactly the unique wrapper whose range covers it: with
room on that wrapper's capacity-1 channel the message is enqueued there and
only there; with the channel full the read loop blocks on that same
wrapper.  No other wrapper ever receives the message. -/
theorem c6_dispatch (base : Nat) (ws : List PRW) (m : Message)
    (hge : base ≤ m.code) (hd : RangesDisjoint ws) :
    ((∀ w ∈ ws, ¬ inRange w m.code) →
        handle base ws m = HandleRes.err (unknownCodeMsg m.code))
    ∧ ∀ i (hi : i < ws.length), inRange (ws.get ⟨i, hi⟩) m.code →
        ((∀ j (hj : j < ws.length), j ≠ i → ¬ inRange (ws.get ⟨j, hj⟩) m.code)
        ∧ ((ws.get ⟨i, hi⟩).qval = none →
            handle base ws m
              = HandleRes.enq i (ws.set i { ws.get ⟨i, hi⟩ with qval := some m }))
        ∧ (∀ x, (ws.get ⟨i, hi⟩).qval = some x →
            handle base ws m = HandleRes.blocked i)) := by
  have hnc : ¬ m.code < base := Nat.not_lt.mpr hge
  constructor
  · intro hnone
    simp only [handle]
    rw [if_neg hnc, scanEnqueue_eq_none m ws hnone]
  · intro i hi hin
    have huniq : ∀ j (hj : j < ws.length), j ≠ i → ¬ inRange (ws.get ⟨j, hj⟩) m.code := by
      intro j hj hne hinj
      rcases Nat.lt_or_ge j i with hlt | hge2
      · exact (List.pairwise_iff_get.mp hd ⟨j, hj⟩ ⟨i, hi⟩ hlt) m.code ⟨hinj, hin⟩
      · have hlt2 : i < j := Nat.lt_of_le_of_ne hge2 (Ne.symm hne)
        exact (List.pairwise_iff_get.mp hd ⟨i, hi⟩ ⟨j, hj⟩ hlt2) m.code ⟨hin, hinj⟩
    refine ⟨huniq, ?_, ?_⟩
    · intro hq
      simp only [handle]
      rw [if_neg hnc,
        scanEnqueue_first_empty m ws i hi hin
          (fun j hj hlt => huniq j hj (Nat.ne_of_lt hlt)) hq]
    · intro x hx
      simp only [handle]
      rw [if_neg hnc,
        scanEnqueue_first_full m x ws i hi hin
          (fun j hj hlt => huniq j hj (Nat.ne_of_lt hlt)) hx]

lemma wrapSub16_eq (a b : Nat) (hba : b ≤ a) (ha : a < u16size) :
    wrapSub16 a b = a - b := by
  have hb : b < u16size := Nat.lt_of_le_of_lt hba ha
  unfold wrapSub16
  rw [Nat.mod_eq_of_lt hb]
  have h1 : a + (u16size - b) = (a - b) + u16size := by
    unfold u16size at *
    omega
  rw [h1, Nat.add_mod_right, Nat.mod_eq_of_lt (by unfold u16size at *; omega)]

/-- C8: a pending message is returned with its code decreased by the
wrapper's offset (and the channel drained); with the `closed` signal fired
and no message pending, `ReadMsg` returns the peer-closed error; and after
`close()` every possible outcome either is the peer-closed error already or
drains the channel so that the next call returns it — `ReadMsg` eventually
returns the peer-closed error. -/
theorem c8_readmsg (w : PRW) (closedB : Bool) (m : Message) :
    (w.qval = some m → w.offset ≤ m.code → m.code < u16size →
        (Except.ok { code := m.code - w.offset, payload := m.payload },
          { w with qval := none }) ∈ readMsgOutcomes w closedB)
    ∧ (w.qval = none →
        readMsgOutcomes w true = [(Except.error "peer connection closed", w)])
    ∧ (∀ o ∈ readMsgOutcomes w true,
        o.1 = Except.error "peer connection closed"
        ∨ (o.2.qval = none ∧
            readMsgOutcomes o.2 true
              = [(Except.error "peer connection closed", o.2)])) := by
  refine ⟨?_, ?_, ?_⟩
  · intro hq hba hlt
    simp only [readMsgOutcomes, hq]
    rw [wrapSub16_eq m.code w.offset hba hlt]
    exact List.mem_append_left _ (List.mem_singleton_self _)
  · intro hq
    simp [readMsgOutcomes, hq]
  · intro o ho
    cases hq : w.qval with
    | none =>
      simp [readMsgOutcomes, hq] at ho
      subst ho
      left
      rfl
    | some m2 =>
      simp [readMsgOutcomes, hq] at ho
      rcases ho with rfl | rfl
      · exact Or.inr ⟨rfl, rfl⟩
      · left
        rfl

/-- C7 as stated for the control-message path: a failed write surfaces as an
error from `sendCtlMsg`. -/
def c7Claim : Prop :=
  ∀ e : String, sendCtlMsg (Except.error e) = Except.error e

/-- C7 counterexample: `sendCtlMsg` discards the connection's write error and
returns `nil`, so a failed Ping/Pong write does not fault the peer. -/
theorem c7_counterexample :
    sendCtlMsg (Except.error "write tcp: i/o timeout") = Except.ok ()
    ∧ ¬ c7Claim := by
  refine ⟨rfl, fun h => ?_⟩
  have h2 := h "write tcp: i/o timeout"
  simp only [sendCtlMsg] at h2
  exact Except.noConfusion h2

/-- C7 amended: read failures are fatal — the read loop surfaces every read
error on `readErr` — while write failures in the ping loop's Ping and
handle's Pong reply are silently discarded (`sendCtlMsg` returns `nil`
whatever the write result was). -/
theorem c7_amended (base : Nat) (ws : List PRW) (e : String)
    (rest : List (Except String Message)) (r : Except String Unit) :
    readLoopRun base ws (Except.error e :: rest) = some e
    ∧ sendCtlMsg r = Except.ok () :=
  ⟨rfl, rfl⟩

/-! ### Concrete wrappers for witnesses -/

/-- A sub-protocol with a 10-code window (no `GetPeer`). -/
def protoA : ProtocolM := { pname := "a", version := 1, length := 10, getPeer := none }

/-- A second sub-protocol with a 10-code window. -/
def protoB : ProtocolM := { pname := "b", version := 1, length := 10, getPeer := none }

/-- Wrapper for `protoA` at offset 100 with an empty inbound channel. -/
def wA : PRW := { proto := protoA, offset := 100, qval := none }

/-- Wrapper for `protoB` at offset 110 with an empty inbound channel. -/
def wB : PRW := { proto := protoB, offset := 110, qval := none }

/-- A two-wrapper peer: ranges `[100,110)` and `[110,120)`. -/
def wsW : List PRW := [wA, wB]

/-- A protocol message with code 115, covered by `wB`'s range. -/
def mW : Message := { code := 115, payload := [2, 3] }

/-- C6 witness: on the concrete two-wrapper peer, the code-115 message is
enqueued to the second wrapper and only there. -/
theorem c6_witness :
    handle 100 wsW mW = HandleRes.enq 1 [wA, { wB with qval := some mW }] := by
  have hd : RangesDisjoint wsW := by
    unfold RangesDisjoint wsW
    refine List.Pairwise.cons ?_ (List.Pairwise.cons ?_ List.Pairwise.nil)
    · intro w hw c hc
      simp only [List.mem_singleton] at hw
      subst hw
      have h1 : inRange wA c := hc.1
      have h2 : inRange wB c := hc.2
      simp only [inRange, wA, wB, protoA, protoB, u16size] at h1 h2
      omega
    · intro w hw
      simp at hw
  exact ((c6_dispatch 100 wsW mW (by decide) hd).2 1 (by decide) (by decide)).2.1 rfl

/-- Wrapper at offset 100 whose capacity-1 channel holds a code-105 message. -/
def wC8 : PRW := { proto := protoA, offset := 100, qval := some { code := 105, payload := [1] } }

/-- C8 witness: with a code-105 message pending on the offset-100 wrapper,
`ReadMsg` can return it with code 5 and the channel drained. -/
theorem c8_witness :
    (Except.ok { code := 5, payload := [1] }, { wC8 with qval := none })
      ∈ readMsgOutcomes wC8 true :=
  (c8_readmsg wC8 true { code := 105, payload := [1] }).1 rfl (by decide) (by decide)

/-! ### C5: offsets, ranges, and the protocol map built by NewPeer -/

lemma mkWrappersAux_proto (ps : List ProtocolM) :
    ∀ off : Nat, (mkWrappersAux off ps).map PRW.proto = ps := by
  induction ps with
  | nil => intro off; rfl
  | cons p ps ih =>
    intro off
    simp only [mkWrappersAux, List.map_cons, ih]

lemma mkWrappersAux_cover (ps : List ProtocolM) :
    ∀ off : Nat, off + sumLen ps < u16size →
      ∀ c : Nat,
        (∃ w ∈ mkWrappersAux off ps, inRange w c) ↔ (off ≤ c ∧ c < off + sumLen ps) := by
  induction ps with
  | nil =>
    intro off _ c
    constructor
    · rintro ⟨w, hw, _⟩
      exact absurd hw (List.not_mem_nil w)
    · rintro ⟨h1, h2⟩
      exact absurd h2 (by simp only [sumLen]; omega)
  | cons p ps ih =>
    intro off h c
    have hs : sumLen (p :: ps) = p.length + sumLen ps := rfl
    rw [hs] at h
    have hmod : (off + p.length) % u16size = off + p.length :=
      Nat.mod_eq_of_lt (by omega)
    have htail := ih (off + p.length) (by omega) c
    constructor
    · rintro ⟨w, hw, hin⟩
      simp only [mkWrappersAux] at hw
      rcases List.mem_cons.mp hw with rfl | hw2
      · have h1 : off ≤ c := hin.1
        have h2 : c < (off + p.length) % u16size := hin.2
        rw [hmod] at h2
        rw [hs]
        omega
      · rw [hmod] at hw2
        have h3 := htail.mp ⟨w, hw2, hin⟩
        rw [hs]
        omega
    · rintro ⟨h1, h2⟩
      rw [hs] at h2
      by_cases hc : c < off + p.length
      · refine ⟨{ proto := p, offset := off, qval := none }, ?_, ?_⟩
        · simp [mkWrappersAux]
        · show off ≤ c ∧ c < (off + p.length) % u16size
          exact ⟨h1, by rw [hmod]; exact hc⟩
      · have h4 := htail.mpr ⟨by omega, by omega⟩
        rcases h4 with ⟨w, hw, hin⟩
        refine ⟨w, ?_, hin⟩
        simp only [mkWrappersAux]
        apply List.mem_cons_of_mem
        rw [hmod]
        exact hw

lemma mkWrappersAux_disjoint (ps : List ProtocolM) :
    ∀ off : Nat, off + sumLen ps < u16size → RangesDisjoint (mkWrappersAux off ps) := by
  induction ps with
  | nil => intro off _; exact List.Pairwise.nil
  | cons p ps ih =>
    intro off h
    have hs : sumLen (p :: ps) = p.length + sumLen ps := rfl
    rw [hs] at h
    have hmod : (off + p.length) % u16size = off + p.length :=
      Nat.mod_eq_of_lt (by omega)
    simp only [mkWrappersAux]
    refine List.Pairwise.cons ?_ ?_
    · intro w hw c hc
      rw [hmod] at hw
      have hcc : c < (off + p.length) % u16size := hc.1.2
      rw [hmod] at hcc
      have h3 := (mkWrappersAux_cover ps (off + p.length) (by omega) c).mp ⟨w, hw, hc.2⟩
      omega
    · rw [hmod]
      exact ih (off + p.length) (by omega)

lemma insertGo_append (al : List (String × PRW)) (k : String) (v : PRW)
    (hk : k ∉ al.map Prod.fst) :
    insertGo al k v = al ++ [(k, v)] := by
  unfold insertGo
  rw [if_neg (by simpa using hk)]

lemma foldl_insertGo (l : List PRW) :
    ∀ acc : List (String × PRW),
      (acc.map Prod.fst ++ l.map (fun w => w.proto.capStr)).Nodup →
      l.foldl (fun al w => insertGo al w.proto.capStr w) acc
        = acc ++ l.map (fun w => (w.proto.capStr, w)) := by
  induction l with
  | nil => intro acc _; simp
  | cons w l ih =>
    intro acc h
    have hcons : acc.map Prod.fst ++ (w :: l).map (fun w => w.proto.capStr)
        = acc.map Prod.fst ++ w.proto.capStr :: l.map (fun w => w.proto.capStr) := by
      simp
    rw [hcons] at h
    rcases List.nodup_append.mp h with ⟨hacc, hrest, hdisj⟩
    have hk : w.proto.capStr ∉ acc.map Prod.fst := by
      intro hmem
      exact hdisj hmem (List.mem_cons_self _ _)
    simp only [List.foldl_cons]
    rw [insertGo_append acc w.proto.capStr w hk,
      ih (acc ++ [(w.proto.capStr, w)])
        (by
          simp only [List.map_append, List.map_cons, List.map_nil, List.append_assoc,
            List.singleton_append]
          rw [List.nodup_append]
          refine ⟨hacc, hrest, ?_⟩
          intro a ha hb
          rcases List.mem_cons.mp hb with rfl | hb2
          · exact hk ha
          · exact hdisj ha (List.mem_cons_of_mem _ hb2))]
    simp

lemma newPeerMap_values (base : Nat) (ps : List ProtocolM)
    (hnd : (ps.map ProtocolM.capStr).Nodup) :
    (newPeerMap base ps).map Prod.snd = mkWrappers base ps := by
  have hp : (mkWrappers base ps).map (fun w => w.proto.capStr) = ps.map ProtocolM.capStr := by
    have h1 := mkWrappersAux_proto ps base
    calc (mkWrappers base ps).map (fun w => w.proto.capStr)
        = ((mkWrappers base ps).map PRW.proto).map ProtocolM.capStr := by
          rw [List.map_map]
          rfl
      _ = ps.map ProtocolM.capStr := by
          unfold mkWrappers
          rw [h1]
  unfold newPeerMap
  rw [foldl_insertGo (mkWrappers base ps) [] (by simpa [hp] using hnd)]
  simp only [List.nil_append, List.map_map]
  rw [show (Prod.snd ∘ fun w : PRW => (w.proto.capStr, w)) = id from rfl, List.map_id]

/-- C5 as stated: for any protocol list with distinct capability strings, the
wrapper ranges built by `NewPeer` are pairwise disjoint and exactly cover
`[baseProtoCode, baseProtoCode + Σ length)`. -/
def c5Claim (base : Nat) (ps : List ProtocolM) : Prop :=
  (ps.map ProtocolM.capStr).Nodup →
    RangesDisjoint (mkWrappers base ps)
    ∧ ∀ c, (∃ w ∈ mkWrappers base ps, inRange w c) ↔ (base ≤ c ∧ c < base + sumLen ps)

/-- A sub-protocol whose window length 65500 overflows the `uint16` running
sum when added to `baseProtoCode`. -/
def protoBig : ProtocolM := { pname := "big", version := 1, length := 65500, getPeer := none }

/-- C5 counterexample: with a single 65500-long window, `offset + length`
wraps to 64 in `uint16` arithmetic, the wrapper's range becomes empty, and
code 100 inside the claimed interval is covered by no wrapper. -/
theorem c5_counterexample : ¬ c5Claim baseProtoCode [protoBig] := by
  intro h
  have h2 := ((h (by decide)).2 100).mpr (by decide)
  rcases h2 with ⟨w, hw, hin⟩
  have hw2 : w = { proto := protoBig, offset := baseProtoCode, qval := none } := by
    simpa [mkWrappers, mkWrappersAux] using hw
  rw [hw2] at hin
  revert hin
  decide

/-- C5 amended: provided the running sum does not overflow `uint16`
(`baseProtoCode + Σ length < 65536`), `NewPeer` stores exactly one wrapper
per protocol under its capability string, and the wrapper ranges are
pairwise disjoint and exactly cover `[base, base + Σ length)` contiguously
in list order. -/
theorem c5_amended (base : Nat) (ps : List ProtocolM)
    (hfit : base + sumLen ps < u16size)
    (hnd : (ps.map ProtocolM.capStr).Nodup) :
    (newPeerMap base ps).map Prod.snd = mkWrappers base ps
    ∧ RangesDisjoint (mkWrappers base ps)
    ∧ ∀ c, (∃ w ∈ mkWrappers base ps, inRange w c) ↔ (base ≤ c ∧ c < base + sumLen ps) :=
  ⟨newPeerMap_values base ps hnd, mkWrappersAux_disjoint ps base hfit,
    mkWrappersAux_cover ps base hfit⟩

/-- The two-protocol list used by the C5 witness. -/
def psW : List ProtocolM := [protoA, protoB]

/-- C5 witness: the amended theorem applies to a concrete two-protocol list
(windows 10 and 10 from base 100) and code 115 is covered. -/
theorem c5_witness :
    (newPeerMap 100 psW).map Prod.snd = mkWrappers 100 psW
    ∧ ∃ w ∈ mkWrappers 100 psW, inRange w 115 := by
  have h := c5_amended 100 psW (by decide) (by decide)
  exact ⟨h.1, (h.2.2 115).mpr (by decide)⟩

/-! ### C9: Peer.Info -/

/-- Byte-lexicographic string comparison, the order `sort.Strings` uses. -/
def strLtB : List Char → List Char → Bool
  | [], [] => false
  | [], _ :: _ => true
  | _ :: _, [] => false
  | a :: as, b :: bs =>
    if a.toNat < b.toNat then true
    else if b.toNat < a.toNat then false
    else strLtB as bs

/-- `a ≤ b` in byte-lexicographic order. -/
def strLe (a b : String) : Prop := strLtB b.data a.data = false

instance (a b : String) : Decidable (strLe a b) :=
  inferInstanceAs (Decidable (_ = _))

/-- A list of strings sorted in the order `sort.Strings` produces. -/
def strSorted (l : List String) : Prop := List.Pairwise strLe l

instance (l : List String) : Decidable (strSorted l) :=
  List.instDecidablePairwise l

/-- Modelled from the spec: the per-sub-protocol metadata entry of `Info()` —
the `get_peer(node_id)` result when non-nil, the string `"handshake"` when
`get_peer` returned nothing, and `"unknown"` when the sub-protocol defines
no `get_peer`. -/
def metaSpec (pr : ProtocolM) (nid : Nat) : String :=
  match pr.getPeer with
  | none => "unknown"
  | some query =>
    match query nid with
    | some metadata => metadata
    | none => "handshake"

/-- One iteration of `Peer.Info`'s loop over the protocol map: append the
capability string to `caps` and the metadata entry (computed exactly as the
code does: start from `"unknown"`, query `GetPeer` when non-nil, fall back
to `"handshake"` on a nil result) keyed by the protocol's name. -/
def infoStep (nid : Nat) (acc : List String × List (String × String)) (w : PRW) :
    List String × List (String × String) :=
  let protoInfo :=
    match w.proto.getPeer with
    | none => "unknown"
    | some query =>
      match query nid with
      | some metadata => metadata
      | none => "handshake"
  (acc.1 ++ [w.proto.capStr], acc.2 ++ [(w.proto.pname, protoInfo)])

/-- `Peer.Info()` restricted to the fields the claim is about: the `caps`
list and the `protocols` metadata map (modelled as an association list in
map-iteration order), built by folding over the wrappers in iteration
order.  The code applies no sort to `caps`. -/
def peerInfo (ws : List PRW) (nid : Nat) : List String × List (String × String) :=
  ws.foldl (infoStep nid) ([], [])

lemma foldl_infoStep (nid : Nat) :
    ∀ (l : List PRW) (a1 : List String) (a2 : List (String × String)),
      l.foldl (infoStep nid) (a1, a2)
        = (a1 ++ l.map (fun w => w.proto.capStr),
           a2 ++ l.map (fun w => (w.proto.pname, metaSpec w.proto nid))) := by
  intro l
  induction l with
  | nil => intro a1 a2; simp
  | cons w l ih =>
    intro a1 a2
    simp only [List.foldl_cons, infoStep]
    rw [ih]
    simp [metaSpec]

/-- C9 as stated: `Info()` returns the capability strings as a sorted list,
with the metadata rule for each sub-protocol. -/
def c9Claim : Prop :=
  ∀ (ws : List PRW) (nid : Nat),
    strSorted (peerInfo ws nid).1
    ∧ (peerInfo ws nid).2 = ws.map (fun w => (w.proto.pname, metaSpec w.proto nid))

/-- A peer whose protocol map enumerates capability `"b/1"` before `"a/1"`
(Go map iteration order is arbitrary, so this enumeration is possible). -/
def wsC9 : List PRW := [wB, wA]

/-- C9 counterexample: `Info()` never sorts `caps`; on an enumeration that
yields `"b/1"` before `"a/1"` the returned list is unsorted. -/
theorem c9_counterexample : ¬ c9Claim := by
  intro h
  have h2 := (h wsC9 0).1
  have h3 : (peerInfo wsC9 0).1 = ["b/1", "a/1"] := rfl
  rw [h3] at h2
  have h4 : strLe "b/1" "a/1" := by
    cases h2 with
    | cons hh _ => exact hh _ (List.mem_singleton_self _)
  exact absurd h4 (by decide)

/-- C9 amended: `Info()` returns the capability strings in map-iteration
order (no sorting applied), and for each sub-protocol the metadata entry is
the `get_peer(node_id)` result when non-nil, `"handshake"` when `get_peer`
returns nothing, and `"unknown"` when the sub-protocol defines no
`get_peer` (the spec-worded rule `metaSpec`). -/
theorem c9_amended (ws : List PRW) (nid : Nat) :
    peerInfo ws nid
      = (ws.map (fun w => w.proto.capStr),
         ws.map (fun w => (w.proto.pname, metaSpec w.proto nid))) := by
  unfold peerInfo
  rw [foldl_infoStep]
  simp

/-! ### Server peer tables (`p2p/server.go`) -/

/-- A connected peer as the server tables see it: `pid` models Go pointer
identity (the `curPeer == p` comparison), `nodeID` the node address
`p.Node.ID`, and `shard` the result of `p.getShardNumber()`
(`p.Node.Shard`). -/
structure PeerM where
  pid : Nat
  nodeID : Nat
  shard : Nat
deriving DecidableEq, Repr

/-- The server's two peer tables: the primary `peerMap` (node address to
peer) and the per-shard `shardPeerMap`.  A shard whose bucket is `none`
models a missing (nil) Go map: reading it yields the empty map, writing to
it panics. -/
@[ext]
structure ServerState where
  peerMap : Nat → Option PeerM
  shardPeerMap : Nat → Option (Nat → Option PeerM)

/-- Go `delete(m, k)` on a (non-nil) map. -/
def mapDel (b : Nat → Option PeerM) (k : Nat) : Nat → Option PeerM :=
  fun a => if a = k then none else b a

/-- `delete(srv.shardPeerMap[sh], k)`: deleting from a nil bucket is a
no-op, as in Go. -/
def bucketDelete (s : ServerState) (sh k : Nat) : ServerState :=
  { s with
    shardPeerMap := fun x =>
      if x = sh then (s.shardPeerMap sh).map (fun b => mapDel b k)
      else s.shardPeerMap x }

/-- The state after installing peer `p` in both tables, given `p`'s shard
bucket. -/
def installState (s : ServerState) (p : PeerM) (b : Nat → Option PeerM) : ServerState :=
  { peerMap := fun a => if a = p.nodeID then some p else s.peerMap a,
    shardPeerMap := fun sh =>
      if sh = p.shard then some (fun a => if a = p.nodeID then some p else b a)
      else s.shardPeerMap sh }

/-- The unconditional writes of `Server.addPeer`:
`srv.shardPeerMap[p.getShardNumber()][p.Node.ID] = p` followed by
`srv.peerMap[p.Node.ID] = p`.  Writing to a missing (nil) shard bucket
panics (`none`). -/
def addPeerInstall (s : ServerState) (p : PeerM) : Option ServerState :=
  match s.shardPeerMap p.shard with
  | none => none
  | some bucket => some (installState s p bucket)

/-- `Server.addPeer`: when a peer already exists at `p.Node.ID`, it is
removed from its shard bucket (its `Disconnect` has no table effect), then
`p` is installed in both tables. -/
def addPeer (s : ServerState) (p : PeerM) : Option ServerState :=
  match s.peerMap p.nodeID with
  | some oldPeer => addPeerInstall (bucketDelete s oldPeer.shard oldPeer.nodeID) p
  | none => addPeerInstall s p

/-- `Server.deletePeer`: remove `p` from both tables only when the primary
table's current entry at `p.Node.ID` is identity-equal to `p`. -/
def deletePeer (s : ServerState) (p : PeerM) : ServerState :=
  match s.peerMap p.nodeID with
  | some curPeer =>
    if curPeer = p then
      bucketDelete { s with peerMap := mapDel s.peerMap p.nodeID } p.shard p.nodeID
    else s
  | none => s

/-- `NewServer`'s table initialization: shard buckets exactly for shards
`1 .. shardCount` (`for i := 1; i < ShardNumber+1; i++`), empty primary
table.  `common.ShardNumber` is a build-level constant outside `src/`, so it
is a parameter here. -/
def newServerState (shardCount : Nat) : ServerState :=
  { peerMap := fun _ => none,
    shardPeerMap := fun sh =>
      if 1 ≤ sh ∧ sh ≤ shardCount then some (fun _ => none) else none }

/-- Modelled from the spec: `discovery.UndefinedShardNumber`, the sentinel
shard value of unassigned nodes, outside `[1, ShardCount]`; its declaration
is not under `src/`. -/
def undefinedShardNumber : Nat := 0

/-- `Server.addNode`'s admission decision on the outbound dial path: `false`
when the node has the Undefined shard or is already in the peer table
(early return, no dial), `true` when it proceeds to dial. -/
def addNode (s : ServerState) (n : PeerM) : Bool :=
  if n.shard = undefinedShardNumber then false
  else if (s.peerMap n.nodeID).isSome then false
  else true

/-- C4 as stated: `addPeer(p)` followed by `deletePeer(p)` restores both
tables from every starting state, including when another peer was already
registered at `p`'s node address. -/
def c4Claim : Prop :=
  ∀ (s : ServerState) (p : PeerM) (s2 : ServerState),
    addPeer s p = some s2 → deletePeer s2 p = s

/-- The previously registered peer at address 5, shard 2. -/
def qOld : PeerM := { pid := 1, nodeID := 5, shard := 2 }

/-- The replacement peer at the same address 5 and shard 2 (a different
connection, hence a different identity). -/
def pNew : PeerM := { pid := 2, nodeID := 5, shard := 2 }

/-- A consistent two-shard state with `qOld` registered in both tables. -/
def s0 : ServerState :=
  { peerMap := fun a => if a = 5 then some qOld else none,
    shardPeerMap := fun sh =>
      if 1 ≤ sh ∧ sh ≤ 2 then
        some (fun a => if a = 5 ∧ sh = 2 then some qOld else none)
      else none }

/-- C4 counterexample: starting from `s0` (old peer `qOld` registered at
address 5), `addPeer(pNew)` then `deletePeer(pNew)` leaves address 5 empty
in the primary table instead of restoring `qOld`. -/
theorem c4_counterexample : ¬ c4Claim := by
  intro h
  have h1 : addPeer s0 pNew = some ((addPeer s0 pNew).getD s0) := rfl
  have h2 := congrArg (fun st => st.peerMap 5) (h s0 pNew _ h1)
  exact absurd h2 (by decide)

/-- C4 amended: when no peer is registered at `p`'s address — neither in the
primary table nor in `p`'s (existing) shard bucket — `addPeer(p)` followed
by `deletePeer(p)` restores both tables exactly. -/
theorem c4_amended (s : ServerState) (p : PeerM) (b : Nat → Option PeerM)
    (h1 : s.peerMap p.nodeID = none)
    (h2 : s.shardPeerMap p.shard = some b)
    (h3 : b p.nodeID = none) :
    (addPeer s p).map (fun s2 => deletePeer s2 p) = some s := by
  have e1 : addPeer s p = some (installState s p b) := by
    unfold addPeer
    rw [h1]
    show addPeerInstall s p = some (installState s p b)
    unfold addPeerInstall
    rw [h2]
  rw [e1]
  show some (deletePeer (installState s p b) p) = some s
  congr 1
  have hcur : (installState s p b).peerMap p.nodeID = some p := by
    unfold installState
    simp
  unfold deletePeer
  rw [hcur]
  show (if p = p
      then bucketDelete
        { installState s p b with
          peerMap := mapDel (installState s p b).peerMap p.nodeID } p.shard p.nodeID
      else installState s p b) = s
  rw [if_pos rfl]
  apply ServerState.ext
  · funext a
    show mapDel (installState s p b).peerMap p.nodeID a = s.peerMap a
    unfold mapDel installState
    by_cases ha : a = p.nodeID
    · subst ha
      rw [if_pos rfl, h1]
    · rw [if_neg ha]
      show (if a = p.nodeID then some p else s.peerMap a) = s.peerMap a
      rw [if_neg ha]
  · funext x
    show (if x = p.shard
      then ((installState s p b).shardPeerMap p.shard).map (fun bb => mapDel bb p.nodeID)
      else (installState s p b).shardPeerMap x)
      = s.shardPeerMap x
    by_cases hx : x = p.shard
    · rw [if_pos hx, hx]
      show (Option.map (fun bb => mapDel bb p.nodeID)
        (if p.shard = p.shard then some (fun a => if a = p.nodeID then some p else b a)
         else s.shardPeerMap p.shard)) = s.shardPeerMap p.shard
      rw [if_pos rfl, h2]
      show some (mapDel (fun a => if a = p.nodeID then some p else b a) p.nodeID) = some b
      congr 1
      funext a
      unfold mapDel
      by_cases ha : a = p.nodeID
      · subst ha
        rw [if_pos rfl, h3]
      · rw [if_neg ha]
        show (if a = p.nodeID then some p else b a) = b a
        rw [if_neg ha]
    · rw [if_neg hx]
      show (if x = p.shard then some (fun a => if a = p.nodeID then some p else b a)
          else s.shardPeerMap x) = s.shardPeerMap x
      rw [if_neg hx]

/-- The fresh peer at address 7, shard 1, used by the C4 witness. -/
def pW : PeerM := { pid := 1, nodeID := 7, shard := 1 }

/-- C4 witness: on the fresh two-shard server state, adding then deleting
`pW` restores the initial state. -/
theorem c4_amended_witness :
    (addPeer (newServerState 2) pW).map (fun s2 => deletePeer s2 pW)
      = some (newServerState 2) :=
  c4_amended (newServerState 2) pW (fun _ => none) rfl rfl rfl

/-- C10: `NewServer` creates shard buckets exactly for `1 .. shardCount`;
`addPeer` writes into `p`'s shard bucket unconditionally, so on the fresh
state it panics (`none`) exactly when `p.shard` is 0 (Undefined) or above
`shardCount` and succeeds otherwise; only the outbound dial path `addNode`
filters Undefined-shard nodes (the inbound `addPeer` path performs no such
check, as the panic conjunct shows), and `addNode` dials defined-shard
nodes not yet in the table. -/
theorem c10_shard_safety (shardCount : Nat) (p : PeerM) :
    (∀ sh, ((newServerState shardCount).shardPeerMap sh).isSome
        ↔ (1 ≤ sh ∧ sh ≤ shardCount))
    ∧ ((p.shard = 0 ∨ shardCount < p.shard) →
        addPeer (newServerState shardCount) p = none)
    ∧ (1 ≤ p.shard → p.shard ≤ shardCount →
        (addPeer (newServerState shardCount) p).isSome = true)
    ∧ (∀ (s : ServerState) (n : PeerM), n.shard = undefinedShardNumber →
        addNode s n = false)
    ∧ (∀ (s : ServerState) (n : PeerM), n.shard ≠ undefinedShardNumber →
        s.peerMap n.nodeID = none → addNode s n = true) := by
  refine ⟨?_, ?_, ?_, ?_, ?_⟩
  · intro sh
    unfold newServerState
    by_cases h : 1 ≤ sh ∧ sh ≤ shardCount <;> simp [h]
  · intro h
    show addPeerInstall (newServerState shardCount) p = none
    unfold addPeerInstall
    have hb : (newServerState shardCount).shardPeerMap p.shard = none := by
      show (if 1 ≤ p.shard ∧ p.shard ≤ shardCount
          then some (fun _ => (none : Option PeerM)) else none) = none
      rw [if_neg (by omega)]
    rw [hb]
  · intro hl hr
    show (addPeerInstall (newServerState shardCount) p).isSome = true
    unfold addPeerInstall
    have hb : (newServerState shardCount).shardPeerMap p.shard
        = some (fun _ => none) := by
      show (if 1 ≤ p.shard ∧ p.shard ≤ shardCount
          then some (fun _ => (none : Option PeerM)) else none) = some (fun _ => none)
      rw [if_pos ⟨hl, hr⟩]
    rw [hb]
    rfl
  · intro s n h
    unfold addNode
    rw [if_pos h]
  · intro s n h hn
    unfold addNode
    rw [if_neg h, hn]
    rfl

/-- C10 witness: with two shards, adding a shard-0 peer panics, adding a
shard-1 peer succeeds, and `addNode` refuses an Undefined-shard node. -/
theorem c10_witness :
    addPeer (newServerState 2) { pid := 1, nodeID := 9, shard := 0 } = none
    ∧ (addPeer (newServerState 2) { pid := 1, nodeID := 9, shard := 1 }).isSome = true
    ∧ addNode (newServerState 2) { pid := 1, nodeID := 9, shard := 0 } = false :=
  ⟨(c10_shard_safety 2 { pid := 1, nodeID := 9, shard := 0 }).2.1 (Or.inl rfl),
   (c10_shard_safety 2 { pid := 1, nodeID := 9, shard := 1 }).2.2.1 (by decide) (by decide),
   (c10_shard_safety 2 { pid := 1, nodeID := 9, shard := 0 }).2.2.2.1
     (newServerState 2) { pid := 1, nodeID := 9, shard := 0 } rfl⟩
